import Mathlib

set_option maxHeartbeats 1000000

/-! Shallow embedding of the path-scanner repository (src/app/scanner.py,
src/app/main.py, src/app/api.py).  Filesystem paths are modelled by their
segment sequences (the parts of a resolved absolute path), directory trees by
an inductive tree, wall-clock times by integers (epoch seconds), and the
concurrent executor by explicit interleaving / step relations. -/

/-! ## Path model (scanner.py: normalize_paths / deduplicate_parent_paths) -/

abbrev PathSegs := List String

/-- Comparison of two characters by code point, as Python compares the
characters of strings. -/
def charLt (a b : Char) : Bool := a.toNat < b.toNat

/-- Lexicographic comparison of two character sequences, as Python compares
strings. -/
def chLt : List Char → List Char → Bool
  | [], [] => false
  | [], _ :: _ => true
  | _ :: _, [] => false
  | a :: as, b :: bs => if a = b then chLt as bs else charLt a b

/-- String comparison by character sequence (Python string order). -/
def strLt (a b : String) : Bool := chLt a.data b.data

/-- Order in which Python sorts pathlib Path values, modelled segment-wise:
lexicographic on the segment sequence.  An ancestor path always sorts before
each of its descendants. -/
def pathSegLe : PathSegs → PathSegs → Bool
  | [], _ => true
  | _ :: _, [] => false
  | a :: as, b :: bs => if a = b then pathSegLe as bs else strLt a b

theorem charLt_asymm {a b : Char} (h1 : charLt a b = true) (h2 : charLt b a = true) :
    False := by
  simp [charLt] at h1 h2; omega

theorem charLt_trans {a b c : Char} (h1 : charLt a b = true) (h2 : charLt b c = true) :
    charLt a c = true := by
  simp [charLt] at h1 h2 ⊢; omega

theorem char_eq_of_not_charLt {a b : Char} (h1 : charLt a b = false)
    (h2 : charLt b a = false) : a = b := by
  simp [charLt] at h1 h2
  have h : a.toNat = b.toNat := by omega
  exact Char.ext (UInt32.ext h)

theorem chLt_asymm : ∀ {as bs : List Char}, chLt as bs = true → chLt bs as = true → False
  | [], [], h1, _ => by simp [chLt] at h1
  | [], _ :: _, _, h2 => by simp [chLt] at h2
  | _ :: _, [], h1, _ => by simp [chLt] at h1
  | a :: as, b :: bs, h1, h2 => by
    by_cases hab : a = b
    · subst hab
      simp [chLt] at h1 h2
      exact chLt_asymm h1 h2
    · simp [chLt, hab, Ne.symm hab] at h1 h2
      exact charLt_asymm h1 h2

theorem chLt_trans : ∀ {as bs cs : List Char}, chLt as bs = true → chLt bs cs = true →
    chLt as cs = true
  | [], [], _, h1, _ => by simp [chLt] at h1
  | [], _ :: _, [], _, h2 => by simp [chLt] at h2
  | [], _ :: _, _ :: _, _, _ => by simp [chLt]
  | _ :: _, [], _, h1, _ => by simp [chLt] at h1
  | _ :: _, _ :: _, [], _, h2 => by simp [chLt] at h2
  | a :: as, b :: bs, c :: cs, h1, h2 => by
    by_cases hab : a = b <;> by_cases hbc : b = c
    · subst hab; subst hbc
      simp [chLt] at h1 h2 ⊢
      exact chLt_trans h1 h2
    · subst hab
      simp [chLt, hbc] at h2 ⊢
      simpa [chLt, hbc] using h2
    · subst hbc
      simp [chLt, hab] at h1 ⊢
      simpa [chLt, hab] using h1
    · simp [chLt, hab] at h1
      simp [chLt, hbc] at h2
      have hac : a ≠ c := by
        intro he; subst he
        exact charLt_asymm h1 h2
      simp [chLt, hac]
      exact charLt_trans h1 h2

theorem chLt_conn : ∀ {as bs : List Char}, as ≠ bs →
    chLt as bs = true ∨ chLt bs as = true
  | [], [], h => absurd rfl h
  | [], _ :: _, _ => by simp [chLt]
  | _ :: _, [], _ => by simp [chLt]
  | a :: as, b :: bs, h => by
    by_cases hab : a = b
    · subst hab
      have hne : as ≠ bs := by intro he; exact h (by rw [he])
      rcases chLt_conn hne with h1 | h1
      · exact Or.inl (by simp [chLt, h1])
      · exact Or.inr (by simp [chLt, h1])
    · by_cases h1 : charLt a b = true
      · exact Or.inl (by simp [chLt, hab, h1])
      · by_cases h2 : charLt b a = true
        · exact Or.inr (by simp [chLt, Ne.symm hab, h2])
        · exact absurd
            (char_eq_of_not_charLt (by simpa using h1) (by simpa using h2)) hab

theorem strLt_asymm {a b : String} (h1 : strLt a b = true) (h2 : strLt b a = true) :
    False := chLt_asymm h1 h2

theorem strLt_trans {a b c : String} (h1 : strLt a b = true) (h2 : strLt b c = true) :
    strLt a c = true := chLt_trans h1 h2

theorem strLt_conn {a b : String} (h : a ≠ b) : strLt a b = true ∨ strLt b a = true := by
  have hd : a.data ≠ b.data := by
    intro he
    apply h
    cases a; cases b
    simp at he
    simp [he]
  exact chLt_conn hd

theorem pathSegLe_total : ∀ (a b : PathSegs), pathSegLe a b = true ∨ pathSegLe b a = true
  | [], _ => Or.inl rfl
  | _ :: _, [] => Or.inr rfl
  | a :: as, b :: bs => by
    by_cases hab : a = b
    · subst hab
      rcases pathSegLe_total as bs with h | h
      · exact Or.inl (by simp [pathSegLe, h])
      · exact Or.inr (by simp [pathSegLe, h])
    · rcases strLt_conn hab with h | h
      · exact Or.inl (by simp [pathSegLe, hab, h])
      · exact Or.inr (by simp [pathSegLe, Ne.symm hab, h])

theorem pathSegLe_trans : ∀ {a b c : PathSegs}, pathSegLe a b = true →
    pathSegLe b c = true → pathSegLe a c = true
  | [], _, _, _, _ => rfl
  | _ :: _, [], _, h1, _ => by simp [pathSegLe] at h1
  | _ :: _, _ :: _, [], _, h2 => by simp [pathSegLe] at h2
  | a :: as, b :: bs, c :: cs, h1, h2 => by
    by_cases hab : a = b <;> by_cases hbc : b = c
    · subst hab; subst hbc
      simp [pathSegLe] at h1 h2 ⊢
      exact pathSegLe_trans h1 h2
    · subst hab
      simp [pathSegLe, hbc] at h2 ⊢
      simpa [pathSegLe, hbc] using h2
    · subst hbc
      simp [pathSegLe, hab] at h1 ⊢
      simpa [pathSegLe, hab] using h1
    · simp [pathSegLe, hab] at h1
      simp [pathSegLe, hbc] at h2
      have hac : a ≠ c := by
        intro he; subst he
        exact strLt_asymm h1 h2
      simp [pathSegLe, hac]
      exact strLt_trans h1 h2

theorem pathSegLe_antisymm : ∀ {a b : PathSegs}, pathSegLe a b = true →
    pathSegLe b a = true → a = b
  | [], [], _, _ => rfl
  | [], _ :: _, _, h2 => by simp [pathSegLe] at h2
  | _ :: _, [], h1, _ => by simp [pathSegLe] at h1
  | a :: as, b :: bs, h1, h2 => by
    by_cases hab : a = b
    · subst hab
      simp [pathSegLe] at h1 h2
      rw [pathSegLe_antisymm h1 h2]
    · simp [pathSegLe, hab] at h1
      simp [pathSegLe, Ne.symm hab] at h2
      exact (strLt_asymm h1 h2).elim

theorem prefix_pathSegLe : ∀ {a b : PathSegs}, a <+: b → pathSegLe a b = true
  | [], _, _ => rfl
  | _ :: _, [], h => absurd (List.eq_nil_of_prefix_nil h) (by simp)
  | a :: as, b :: bs, h => by
    rw [List.cons_prefix_cons] at h
    obtain ⟨he, hp⟩ := h
    subst he
    simpa [pathSegLe] using prefix_pathSegLe hp

/-- Model of Path.is_relative_to(r): r equals p or is an ancestor of p,
segment-wise (r is a prefix of p). -/
def is_relative_to (p r : PathSegs) : Bool := r.isPrefixOf p

/-- Loop body of deduplicate_parent_paths: append p to the kept roots unless it
is relative to one of them. -/
def dedupStep (roots : List PathSegs) (p : PathSegs) : List PathSegs :=
  if roots.any (fun r => is_relative_to p r) then roots else roots ++ [p]

/-- scanner.py deduplicate_parent_paths: iterate over the sorted paths and keep
a path only when it is not relative to an already kept root. -/
def deduplicate_parent_paths (paths : List PathSegs) : List PathSegs :=
  (paths.mergeSort pathSegLe).foldl dedupStep []

theorem mem_foldl_dedupStep : ∀ (xs : List PathSegs) (acc : List PathSegs)
    (y : PathSegs), y ∈ xs.foldl dedupStep acc → y ∈ acc ∨ y ∈ xs
  | [], _, _, h => Or.inl h
  | x :: xs, acc, y, h => by
    rw [List.foldl_cons] at h
    rcases mem_foldl_dedupStep xs (dedupStep acc x) y h with h1 | h1
    · unfold dedupStep at h1
      split at h1
      · exact Or.inl h1
      · rcases List.mem_append.mp h1 with h2 | h2
        · exact Or.inl h2
        · simp at h2
          exact Or.inr (by simp [h2])
    · exact Or.inr (List.mem_cons_of_mem x h1)

theorem subset_foldl_dedupStep : ∀ (xs : List PathSegs) (acc : List PathSegs),
    acc ⊆ xs.foldl dedupStep acc
  | [], _ => fun _ h => h
  | x :: xs, acc => by
    rw [List.foldl_cons]
    intro y hy
    refine subset_foldl_dedupStep xs (dedupStep acc x) ?_
    unfold dedupStep
    split
    · exact hy
    · exact List.mem_append_left _ hy

theorem cover_foldl_dedupStep : ∀ (xs : List PathSegs) (acc : List PathSegs),
    ∀ p ∈ xs, ∃ r ∈ xs.foldl dedupStep acc, r <+: p
  | [], _, _, hp => absurd hp (by simp)
  | x :: xs, acc, p, hp => by
    rw [List.foldl_cons]
    rcases List.mem_cons.mp hp with h | h
    · subst h
      by_cases hany : acc.any (fun r => is_relative_to p r) = true
      · obtain ⟨r, hr, hrel⟩ := List.any_eq_true.mp hany
        refine ⟨r, ?_, List.isPrefixOf_iff_prefix.mp hrel⟩
        refine subset_foldl_dedupStep xs _ ?_
        simp only [dedupStep, hany, if_pos]
        exact hr
      · refine ⟨p, ?_, List.prefix_refl p⟩
        refine subset_foldl_dedupStep xs _ ?_
        simp only [dedupStep, hany, if_neg, Bool.not_eq_true]
        simp at hany
        simp [hany]
    · exact cover_foldl_dedupStep xs (dedupStep acc x) p h

theorem nodesc_foldl_dedupStep : ∀ (xs : List PathSegs) (acc : List PathSegs),
    List.Pairwise (fun a b => pathSegLe a b = true) xs →
    (∀ r ∈ acc, ∀ x ∈ xs, pathSegLe r x = true) →
    (∀ a ∈ acc, ∀ b ∈ acc, a <+: b → a = b) →
    ∀ a ∈ xs.foldl dedupStep acc, ∀ b ∈ xs.foldl dedupStep acc, a <+: b → a = b
  | [], _, _, _, hacc => hacc
  | x :: xs, acc, hsort, hle, hacc => by
    rw [List.foldl_cons]
    rw [List.pairwise_cons] at hsort
    by_cases hany : acc.any (fun r => is_relative_to x r) = true
    · have hstep : dedupStep acc x = acc := by simp [dedupStep, hany]
      rw [hstep]
      exact nodesc_foldl_dedupStep xs acc hsort.2
        (fun r hr y hy => hle r hr y (List.mem_cons_of_mem x hy)) hacc
    · have hstep : dedupStep acc x = acc ++ [x] := by simp [dedupStep, hany]
      rw [hstep]
      have hnorel : ∀ r ∈ acc, ¬(r <+: x) := by
        intro r hr hpre
        simp at hany
        have h1 := hany r hr
        rw [show is_relative_to x r = r.isPrefixOf x from rfl,
          List.isPrefixOf_iff_prefix.mpr hpre] at h1
        simp at h1
      refine nodesc_foldl_dedupStep xs (acc ++ [x]) hsort.2 ?_ ?_
      · intro r hr y hy
        rcases List.mem_append.mp hr with h1 | h1
        · exact hle r h1 y (List.mem_cons_of_mem x hy)
        · simp at h1
          subst h1
          exact hsort.1 y hy
      · intro a ha b hb hpre
        rcases List.mem_append.mp ha with h1 | h1 <;>
          rcases List.mem_append.mp hb with h2 | h2
        · exact hacc a h1 b h2 hpre
        · simp at h2
          subst h2
          exact absurd hpre (hnorel a h1)
        · simp at h1
          subst h1
          exact pathSegLe_antisymm (prefix_pathSegLe hpre)
            (hle b h2 a (List.mem_cons_self a xs))
        · simp at h1 h2
          subst h1; subst h2
          rfl

/-- C6: PathResolver output contains no member that is a proper descendant of
another member, and covers exactly the same path tree as its input: a path is
below some output root exactly when it is below some input path. -/
theorem pathresolver_minimal_cover (paths : List PathSegs) :
    (∀ a ∈ deduplicate_parent_paths paths, ∀ b ∈ deduplicate_parent_paths paths,
      a <+: b → a = b) ∧
    (∀ x : PathSegs, (∃ p ∈ deduplicate_parent_paths paths, p <+: x) ↔
      (∃ p ∈ paths, p <+: x)) := by
  constructor
  · refine nodesc_foldl_dedupStep (paths.mergeSort pathSegLe) []
      (@List.sorted_mergeSort PathSegs pathSegLe
        (fun a b c hab hbc => pathSegLe_trans hab hbc)
        (fun a b => by rcases pathSegLe_total a b with h | h <;> simp [h]) paths)
      (by simp) (by simp)
  · intro x
    constructor
    · rintro ⟨p, hp, hpre⟩
      rcases mem_foldl_dedupStep (paths.mergeSort pathSegLe) [] p hp with h | h
      · exact absurd h (by simp)
      · exact ⟨p, (List.mergeSort_perm paths pathSegLe).mem_iff.mp h, hpre⟩
    · rintro ⟨p, hp, hpre⟩
      have hp2 : p ∈ paths.mergeSort pathSegLe :=
        (List.mergeSort_perm paths pathSegLe).mem_iff.mpr hp
      obtain ⟨r, hr, hrpre⟩ := cover_foldl_dedupStep (paths.mergeSort pathSegLe) [] p hp2
      exact ⟨r, hr, hrpre.trans hpre⟩

/-- Concrete instantiation of the PathResolver theorem on the example inputs
from the specification. -/
theorem pathresolver_minimal_cover_witness :
    ∃ p ∈ deduplicate_parent_paths
      [["data", "a"], ["data", "a", "sub"], ["data", "b"]],
      p <+: ["data", "a", "x.txt"] :=
  (pathresolver_minimal_cover
      [["data", "a"], ["data", "a", "sub"], ["data", "b"]]).2
    ["data", "a", "x.txt"] |>.mpr ⟨["data", "a"], by simp, ⟨["x.txt"], rfl⟩⟩

/-! ## TreeScanner (scanner.py: scan_root) -/

/-- Entry-name filter used by scan_root: hidden names (leading dot) and the
Synology metadata directory name are excluded. -/
def hiddenOrReserved (name : String) : Bool :=
  (match name.data with
   | [] => false
   | c :: _ => c = '.') || name = "@eaDir"

/-- Row emitted by scan_root; the first column is literally named type in the
code, holding dir or file. -/
structure ScanRecord where
  type : String
  root_path : PathSegs
  full_path : PathSegs
  name : String
deriving DecidableEq, Repr

/-- Directory tree: a directory node holds its plain-file names and its named
subdirectories, in listing order. -/
inductive FSNode where
  | mk (files : List String) (dirs : List (String × FSNode)) : FSNode

mutual

/-- One os.walk visit in scan_root: emit dir rows for the kept subdirectories,
then file rows for the non-hidden files, then descend into the kept
subdirectories in order. -/
def walkNode (root dirpath : PathSegs) : FSNode → List ScanRecord
  | .mk files dirs =>
    ((dirs.filter (fun e => !hiddenOrReserved e.1)).map
      (fun e => ⟨"dir", root, dirpath ++ [e.1], e.1⟩))
    ++ ((files.filter (fun f => !hiddenOrReserved f)).map
      (fun f => ⟨"file", root, dirpath ++ [f], f⟩))
    ++ walkDirs root dirpath dirs

/-- Descend into each subdirectory that survives the in-place dirnames
filter. -/
def walkDirs (root dirpath : PathSegs) : List (String × FSNode) → List ScanRecord
  | [] => []
  | e :: rest =>
    (if hiddenOrReserved e.1 then [] else walkNode root (dirpath ++ [e.1]) e.2)
    ++ walkDirs root dirpath rest

end

/-- scanner.py scan_root: walk the tree under the given root with hidden and
reserved directory names pruned before descent and hidden and reserved file
names skipped at emission. -/
def scan_root (root : PathSegs) (tree : FSNode) : List ScanRecord :=
  walkNode root root tree

mutual

theorem walkNode_sound : ∀ (root dirpath : PathSegs), root <+: dirpath →
    ∀ (n : FSNode), ∀ r ∈ walkNode root dirpath n,
      root <+: r.full_path ∧ hiddenOrReserved r.name = false
  | root, dirpath, hpre, .mk files dirs, r, hr => by
    rw [walkNode] at hr
    rcases List.mem_append.mp hr with h1 | h1
    · rcases List.mem_append.mp h1 with h2 | h2
      · obtain ⟨e, he, hre⟩ := List.mem_map.mp h2
        obtain ⟨_, hkept⟩ := List.mem_filter.mp he
        subst hre
        exact ⟨hpre.trans (List.prefix_append dirpath [e.1]), by simpa using hkept⟩
      · obtain ⟨f, hf, hrf⟩ := List.mem_map.mp h2
        obtain ⟨_, hkept⟩ := List.mem_filter.mp hf
        subst hrf
        exact ⟨hpre.trans (List.prefix_append dirpath [f]), by simpa using hkept⟩
    · exact walkDirs_sound root dirpath hpre dirs r h1

theorem walkDirs_sound : ∀ (root dirpath : PathSegs), root <+: dirpath →
    ∀ (ds : List (String × FSNode)), ∀ r ∈ walkDirs root dirpath ds,
      root <+: r.full_path ∧ hiddenOrReserved r.name = false
  | root, dirpath, _, [], r, hr => by rw [walkDirs] at hr; exact absurd hr (by simp)
  | root, dirpath, hpre, e :: rest, r, hr => by
    rw [walkDirs] at hr
    rcases List.mem_append.mp hr with h1 | h1
    · by_cases hh : hiddenOrReserved e.1 = true
      · rw [if_pos hh] at h1
        exact absurd h1 (by simp)
      · rw [if_neg hh] at h1
        exact walkNode_sound root (dirpath ++ [e.1])
          (hpre.trans (List.prefix_append dirpath [e.1])) e.2 r h1
    · exact walkDirs_sound root dirpath hpre rest r h1

end

/-- C7: every record emitted by TreeScanner for root R has full_path equal to R
or a path-tree descendant of R, and no emitted record has a name starting with
a dot or equal to the reserved metadata directory name @eaDir. -/
theorem treescanner_rooted_and_filtered (root : PathSegs) (tree : FSNode)
    (r : ScanRecord) (hr : r ∈ scan_root root tree) :
    root <+: r.full_path ∧ hiddenOrReserved r.name = false :=
  walkNode_sound root root (List.prefix_refl root) tree r hr

/-- Concrete instantiation of the TreeScanner theorem: a tree with a hidden
file, a reserved directory and a plain file, checked on the plain file's
record. -/
theorem treescanner_rooted_and_filtered_witness :
    ["data", "a"] <+:
      (⟨"file", ["data", "a"], ["data", "a", "x.txt"], "x.txt"⟩ : ScanRecord).full_path ∧
    hiddenOrReserved "x.txt" = false :=
  treescanner_rooted_and_filtered ["data", "a"]
    (FSNode.mk ["x.txt", ".hidden"]
      [("sub", FSNode.mk [] []), ("@eaDir", FSNode.mk ["y"] [])])
    ⟨"file", ["data", "a"], ["data", "a", "x.txt"], "x.txt"⟩
    (by simp [scan_root, walkNode, walkDirs, hiddenOrReserved])

/-! ## RecordSink (scanner.py: write_csv) -/

/-- Rendering of a resolved absolute path, as str() of a posix Path. -/
def pathStr (p : PathSegs) : String := "/" ++ String.intercalate "/" p

/-- Minimal-quoting rule of the csv module's default dialect: a field is quoted
exactly when it contains the delimiter, the quote character or a line break. -/
def csvNeedsQuote (s : String) : Bool :=
  s.data.any (fun c => c = ',' || c = '"' || c = '\r' || c = '\n')

/-- Escape of one character inside a quoted field: quote characters are
doubled. -/
def csvEscapeChar (c : Char) : String :=
  if c = '"' then "\"\"" else String.singleton c

/-- Serialization of one field value under minimal quoting. -/
def csvField (s : String) : String :=
  if csvNeedsQuote s then "\"" ++ String.join (s.data.map csvEscapeChar) ++ "\""
  else s

/-- Serialization of one row: fields joined by the comma delimiter. -/
def csvLine (fields : List String) : String :=
  String.intercalate "," (fields.map csvField)

/-- Data row written for one ScanRecord, in the field order of write_csv. -/
def recordRow (r : ScanRecord) : String :=
  csvLine [r.type, pathStr r.root_path, pathStr r.full_path, r.name]

/-- scanner.py write_csv: the header row followed by one data row per record,
in record order. -/
def write_csv (rows : List ScanRecord) : List String :=
  csvLine ["type", "root_path", "full_path", "name"] :: rows.map recordRow

/-- C5 counterexample: the header row written by write_csv is
type,root_path,full_path,name, not kind,root_path,full_path,name as the claim
states. -/
theorem recordsink_header_counterexample :
    (write_csv []).head? = some "type,root_path,full_path,name" ∧
    some "type,root_path,full_path,name" ≠
      some ("kind,root_path,full_path,name" : String) := by
  exact ⟨rfl, by decide⟩

/-- C5 amended: the dated record file begins with the fixed four-column header
row type,root_path,full_path,name, followed by one data row per ScanRecord in
order, each field serialized with standard minimal quoting (unchanged when it
contains no delimiter, quote or line break, otherwise wrapped in quotes with
embedded quotes doubled). -/
theorem recordsink_file_layout (rows : List ScanRecord) :
    (write_csv rows).head? = some "type,root_path,full_path,name" ∧
    (write_csv rows).length = rows.length + 1 ∧
    (∀ i : Nat, (write_csv rows)[i + 1]? = (rows[i]?).map recordRow) ∧
    (∀ s : String, csvNeedsQuote s = false → csvField s = s) := by
  refine ⟨rfl, by simp [write_csv], ?_, ?_⟩
  · intro i
    simp [write_csv]
  · intro s hs
    simp [csvField, hs]

/-- Concrete instantiation of the RecordSink layout theorem on a one-record
run whose name embeds a comma. -/
theorem recordsink_file_layout_witness :
    csvField "x.txt" = "x.txt" :=
  (recordsink_file_layout
    [⟨"file", ["data", "a"], ["data", "a", "x,y.txt"], "x,y.txt"⟩]).2.2.2
    "x.txt" (by decide)

/-! ## RetentionManager (scanner.py: cleanup_old_outputs) -/

/-- Hardcoded name of the canonical latest file in scanner.py. -/
def LATEST_CSV_NAME : String := "scan_latest.csv"

/-- One entry of the output directory, with its modification time in epoch
seconds. -/
structure DirEntry where
  name : String
  isFile : Bool
  mtime : Int
deriving DecidableEq, Repr

/-- Decider for the dated-output filename pattern of cleanup_old_outputs:
scan_ then eight digits, an underscore, six digits and the .csv suffix. -/
def datedOutputName (s : String) : Bool :=
  match s.data with
  | 's' :: 'c' :: 'a' :: 'n' :: '_' :: rest =>
    (rest.take 8).length = 8 && (rest.take 8).all Char.isDigit &&
    (match rest.drop 8 with
     | '_' :: rest2 =>
       (rest2.take 6).length = 6 && (rest2.take 6).all Char.isDigit &&
       rest2.drop 6 = ['.', 'c', 's', 'v']
     | _ => false)
  | _ => false

/-- scanner.py cleanup_old_outputs: walk the directory entries in order,
skipping non-files, the hardcoded latest name and names not matching the
dated pattern, and deleting every remaining entry strictly older than the
cutoff of keep_days days before now.  Returns the deleted names in deletion
order; the logged removed count is the length of this list. -/
def cleanup_old_outputs (now keep_days : Int) : List DirEntry → List String
  | [] => []
  | f :: rest =>
    (if !f.isFile then []
     else if f.name = LATEST_CSV_NAME then []
     else if !datedOutputName f.name then []
     else if f.mtime < now - keep_days * 86400 then [f.name]
     else []) ++ cleanup_old_outputs now keep_days rest

/-- C4 counterexample: with the latest filename configured to a name matching
the dated-output pattern (as scan_task allows via output.latest_filename), the
latest file is deleted by cleanup, because only the hardcoded name
scan_latest.csv is protected. -/
theorem retention_deletes_configured_latest :
    cleanup_old_outputs 1600000000 7
      [⟨"scan_20200101_000000.csv", true, 0⟩] = ["scan_20200101_000000.csv"] := by
  decide

/-- C4 amended: cleanup deletes exactly the plain-file entries whose name
matches the dated-output pattern, differs from the hardcoded latest name
scan_latest.csv, and whose modification time is strictly before now minus
keep_days days; in particular a file named scan_latest.csv is never deleted,
but a configured latest filename is protected only when it equals that
constant or does not match the dated pattern. -/
theorem retention_policy_characterization (now keep_days : Int)
    (entries : List DirEntry) :
    cleanup_old_outputs now keep_days entries =
      (entries.filter (fun f => f.isFile && f.name ≠ LATEST_CSV_NAME &&
        datedOutputName f.name &&
        decide (f.mtime < now - keep_days * 86400))).map DirEntry.name ∧
    ∀ e ∈ entries, e.name = LATEST_CSV_NAME →
      e.name ∉ cleanup_old_outputs now keep_days entries := by
  have hchar : ∀ l : List DirEntry, cleanup_old_outputs now keep_days l =
      (l.filter (fun f => f.isFile && f.name ≠ LATEST_CSV_NAME &&
        datedOutputName f.name &&
        decide (f.mtime < now - keep_days * 86400))).map DirEntry.name := by
    intro l
    induction l with
    | nil => rfl
    | cons f rest ih =>
      rw [cleanup_old_outputs, ih]
      by_cases h1 : f.isFile = true
      · by_cases h2 : f.name = LATEST_CSV_NAME
        · simp [h1, h2, List.filter_cons]
        · by_cases h3 : datedOutputName f.name = true
          · by_cases h4 : f.mtime < now - keep_days * 86400
            · simp [h1, h2, h3, h4, List.filter_cons]
            · simp [h1, h2, h3, h4, List.filter_cons]
          · simp [h1, h2, h3, List.filter_cons]
      · have h1f : f.isFile = false := by
          cases hf : f.isFile
          · rfl
          · exact absurd hf h1
        simp [h1f, List.filter_cons]
  refine ⟨hchar entries, ?_⟩
  intro e _ hname hmem
  rw [hchar entries] at hmem
  obtain ⟨f, hf, hfe⟩ := List.mem_map.mp hmem
  have := (List.mem_filter.mp hf).2
  rw [hfe, hname] at this
  simp at this

/-- Concrete instantiation of the retention characterization: a directory
holding the real latest file and one expired dated file; the latest file's
name is not among the deletions. -/
theorem retention_policy_characterization_witness :
    "scan_latest.csv" ∉ cleanup_old_outputs 1600000000 7
      [⟨"scan_latest.csv", true, 0⟩, ⟨"scan_20200101_000000.csv", true, 0⟩] :=
  (retention_policy_characterization 1600000000 7
      [⟨"scan_latest.csv", true, 0⟩, ⟨"scan_20200101_000000.csv", true, 0⟩]).2
    ⟨"scan_latest.csv", true, 0⟩ (by simp) rfl

/-! ## UploadThrottle (scanner.py: should_upload_to_oss, mark_oss_upload,
upload_latest_csv_to_oss) -/

/-- Persisted upload-marker state: the marker file may be absent, unreadable
or corrupt, or hold an epoch-seconds value. -/
inductive MarkerState where
  | absent : MarkerState
  | unreadable : MarkerState
  | value (t : Int) : MarkerState
deriving DecidableEq, Repr

/-- scanner.py should_upload_to_oss: true when upload_interval_days is falsy
(absent or zero, per the Python truthiness test, checked before the marker is
read), when the marker file is absent or unparsable, or when at least
interval_days times 86400 seconds have elapsed since the marker time. -/
def should_upload_to_oss (upload_interval_days : Option Int) (marker : MarkerState)
    (now : Int) : Bool :=
  match upload_interval_days with
  | none => true
  | some d =>
    if d = 0 then true
    else
      match marker with
      | .absent => true
      | .unreadable => true
      | .value t => decide (now - t ≥ d * 86400)

/-- scanner.py mark_oss_upload: overwrite the marker with the current time. -/
def mark_oss_upload (now : Int) : MarkerState := .value now

/-- Outcome of the object-store put call (external collaborator). -/
inductive PutOutcome where
  | success : PutOutcome
  | failure (msg : String) : PutOutcome
deriving DecidableEq, Repr

/-- Observable result of one invocation of upload_latest_csv_to_oss. -/
inductive UploadResult where
  | skippedDisabled : UploadResult
  | skippedNoFile : UploadResult
  | skippedThrottled : UploadResult
  | uploaded : UploadResult
  | failedLogged (msg : String) : UploadResult
deriving DecidableEq, Repr

/-- Inputs of one upload_latest_csv_to_oss call. -/
structure UploadEnv where
  enabled : Bool
  latestExists : Bool
  upload_interval_days : Option Int
  marker : MarkerState
  now : Int
  put : PutOutcome
deriving DecidableEq, Repr

/-- scanner.py upload_latest_csv_to_oss, as a total function: every failure of
the store interaction is caught and logged inside the component, so nothing
escapes it.  Returns the result together with the marker state after the
call; mark_oss_upload runs only after a successful put. -/
def upload_latest_csv_to_oss (env : UploadEnv) : UploadResult × MarkerState :=
  if !env.enabled then (.skippedDisabled, env.marker)
  else if !env.latestExists then (.skippedNoFile, env.marker)
  else if !should_upload_to_oss env.upload_interval_days env.marker env.now then
    (.skippedThrottled, env.marker)
  else
    match env.put with
    | .success => (.uploaded, mark_oss_upload env.now)
    | .failure m => (.failedLogged m, env.marker)

/-- True when the call reached the object store (successfully or not). -/
def uploadAttempted (env : UploadEnv) : Bool :=
  match (upload_latest_csv_to_oss env).1 with
  | .uploaded => true
  | .failedLogged _ => true
  | _ => false

/-- Modelled from the spec wording of C8 for comparison with the code: attempt
iff the interval is unset, or the marker is absent or unreadable or corrupt,
or now minus the marker time is at least interval_days times 86400 seconds. -/
def specUploadDue (upload_interval_days : Option Int) (marker : MarkerState)
    (now : Int) : Bool :=
  match upload_interval_days with
  | none => true
  | some d =>
    match marker with
    | .absent => true
    | .unreadable => true
    | .value t => decide (now - t ≥ d * 86400)

/-- C8 counterexample: with upload_interval_days configured as zero and a
readable marker lying in the future, the code attempts the upload (the Python
truthiness test treats a zero interval like an absent one, before the marker
is consulted), while the claimed decision formula says no attempt is due. -/
theorem uploadthrottle_zero_interval_counterexample :
    uploadAttempted ⟨true, true, some 0, .value 10, 5, .success⟩ = true ∧
    specUploadDue (some 0) (.value 10) 5 = false := by
  decide

/-- C8 amended: given the feature is enabled and the latest file exists, an
upload is attempted iff the interval is unset or zero, or the marker is absent
or unreadable, or now minus the marker time is at least interval_days times
86400 seconds; and the marker is rewritten (with the current time) exactly
when an attempt succeeds, otherwise left unchanged. -/
theorem uploadthrottle_decision_and_marker (env : UploadEnv)
    (hen : env.enabled = true) (hex : env.latestExists = true) :
    (uploadAttempted env = true ↔
      (env.upload_interval_days = none ∨ env.upload_interval_days = some 0 ∨
       env.marker = .absent ∨ env.marker = .unreadable ∨
       (∃ d t, env.upload_interval_days = some d ∧ env.marker = .value t ∧
         env.now - t ≥ d * 86400))) ∧
    (upload_latest_csv_to_oss env).2 =
      (if uploadAttempted env && (env.put == PutOutcome.success) then
        mark_oss_upload env.now
      else env.marker) := by
  obtain ⟨en, ex, iv, mk, noww, put⟩ := env
  simp only at hen hex
  subst hen; subst hex
  constructor
  · cases iv with
    | none =>
      cases put <;>
        simp [uploadAttempted, upload_latest_csv_to_oss, should_upload_to_oss]
    | some d =>
      by_cases hd : d = 0
      · subst hd
        cases put <;>
          simp [uploadAttempted, upload_latest_csv_to_oss, should_upload_to_oss]
      · cases mk with
        | absent =>
          cases put <;>
            simp [uploadAttempted, upload_latest_csv_to_oss, should_upload_to_oss, hd]
        | unreadable =>
          cases put <;>
            simp [uploadAttempted, upload_latest_csv_to_oss, should_upload_to_oss, hd]
        | value t =>
          by_cases ht : noww - t ≥ d * 86400
          · cases put <;>
              simp [uploadAttempted, upload_latest_csv_to_oss, should_upload_to_oss,
                hd, ht]
          · cases put <;>
              simp [uploadAttempted, upload_latest_csv_to_oss, should_upload_to_oss,
                hd, ht]
  · cases put <;>
      by_cases hdue : should_upload_to_oss iv mk noww = true <;>
        simp [uploadAttempted, upload_latest_csv_to_oss, mark_oss_upload, hdue]

/-- Concrete instantiation of the UploadThrottle theorem: no interval
configured, no marker, so an attempt is due. -/
theorem uploadthrottle_decision_and_marker_witness :
    uploadAttempted ⟨true, true, none, .absent, 100, .success⟩ = true :=
  (uploadthrottle_decision_and_marker ⟨true, true, none, .absent, 100, .success⟩
    rfl rfl).1.mpr (Or.inl rfl)

/-! ## scan_task (scanner.py: scan_task) -/

/-- Inputs of one scan_task run.  The filesystem is a lookup from a resolved
root to its directory tree, none meaning the root does not exist.  The put
outcome stands for the external object-store interaction of the final upload
step. -/
structure ScanTaskEnv where
  paths : List PathSegs
  ignore_missing_path : Option Bool
  fs : PathSegs → Option FSNode
  retention_days : Option Int
  outputEntries : List DirEntry
  now : Int
  oss_enabled : Bool
  upload_interval_days : Option Int
  marker : MarkerState
  put : PutOutcome

/-- Root loop of scan_task: a missing root is skipped when ignore_missing_path
is true and aborts the whole run otherwise; an existing root contributes its
scan_root records in order. -/
def gatherRows (fs : PathSegs → Option FSNode) (ignoreMissing : Bool) :
    List PathSegs → Except String (List ScanRecord)
  | [] => .ok []
  | root :: rest =>
    match fs root with
    | none =>
      if ignoreMissing then gatherRows fs ignoreMissing rest
      else .error ("path does not exist: " ++ pathStr root)
    | some t => (gatherRows fs ignoreMissing rest).map
        (fun rows => scan_root root t ++ rows)

/-- Summary of a completed scan_task run. -/
structure ScanRunResult where
  recordCount : Nat
  cleanedCount : Nat
  uploadResult : UploadResult
  markerAfter : MarkerState
deriving DecidableEq, Repr

/-- scanner.py scan_task: normalize and deduplicate the configured paths, walk
each existing root subject to ignore_missing_path (absent means true), write
the dated and latest files, run retention cleanup when retention.days is
truthy, and finish with the best-effort upload of the just-written latest
file. -/
def scan_task (env : ScanTaskEnv) : Except String ScanRunResult :=
  match gatherRows env.fs (env.ignore_missing_path.getD true)
      (deduplicate_parent_paths env.paths) with
  | .error e => .error e
  | .ok rows =>
    let cleaned :=
      match env.retention_days with
      | none => []
      | some d => if d = 0 then [] else cleanup_old_outputs env.now d env.outputEntries
    let up := upload_latest_csv_to_oss
      ⟨env.oss_enabled, true, env.upload_interval_days, env.marker, env.now, env.put⟩
    .ok ⟨rows.length, cleaned.length, up.1, up.2⟩

/-- C9: an object-store failure is swallowed inside the upload component
(which is a total function, so nothing ever raises past it), leaves the
persisted marker unchanged, and scan_task still reports success exactly when
its scan phase succeeded. -/
theorem upload_failure_swallowed (env : ScanTaskEnv) (m : String)
    (hput : env.put = .failure m) :
    ((scan_task env).isOk ↔
      (gatherRows env.fs (env.ignore_missing_path.getD true)
        (deduplicate_parent_paths env.paths)).isOk) ∧
    (∀ res : ScanRunResult, scan_task env = .ok res → res.markerAfter = env.marker) ∧
    (∀ envU : UploadEnv, envU.put = .failure m →
      (upload_latest_csv_to_oss envU).2 = envU.marker ∧
      ((upload_latest_csv_to_oss envU).1 = .failedLogged m ∨
       (upload_latest_csv_to_oss envU).1 = .skippedDisabled ∨
       (upload_latest_csv_to_oss envU).1 = .skippedNoFile ∨
       (upload_latest_csv_to_oss envU).1 = .skippedThrottled)) := by
  have hup : ∀ envU : UploadEnv, envU.put = .failure m →
      (upload_latest_csv_to_oss envU).2 = envU.marker ∧
      ((upload_latest_csv_to_oss envU).1 = .failedLogged m ∨
       (upload_latest_csv_to_oss envU).1 = .skippedDisabled ∨
       (upload_latest_csv_to_oss envU).1 = .skippedNoFile ∨
       (upload_latest_csv_to_oss envU).1 = .skippedThrottled) := by
    intro envU hputU
    obtain ⟨en, ex, iv, mk, noww, put⟩ := envU
    simp only at hputU
    subst hputU
    cases en <;> cases ex <;>
      by_cases hdue : should_upload_to_oss iv mk noww = true <;>
        simp [upload_latest_csv_to_oss, hdue]
  refine ⟨?_, ?_, hup⟩
  · rw [scan_task]
    cases gatherRows env.fs (env.ignore_missing_path.getD true)
        (deduplicate_parent_paths env.paths) <;> simp [Except.isOk, Except.toBool]
  · intro res hres
    rw [scan_task] at hres
    cases hg : gatherRows env.fs (env.ignore_missing_path.getD true)
        (deduplicate_parent_paths env.paths) with
    | error e => rw [hg] at hres; exact absurd hres (by simp)
    | ok rows =>
      rw [hg] at hres
      simp only [Except.ok.injEq] at hres
      have h2 := congrArg ScanRunResult.markerAfter hres
      simp only at h2
      rw [← h2]
      exact (hup ⟨env.oss_enabled, true, env.upload_interval_days, env.marker,
        env.now, env.put⟩ hput).1

/-- Concrete instantiation of the upload-failure theorem: a one-root run whose
put call fails still reports a successful scan with the marker untouched. -/
theorem upload_failure_swallowed_witness :
    (scan_task ⟨[["data"]], none, fun p => if p = ["data"] then
        some (FSNode.mk ["f"] []) else none, none, [], 1000, true, none,
        MarkerState.absent, PutOutcome.failure "boom"⟩).isOk ↔
    (gatherRows (fun p => if p = ["data"] then some (FSNode.mk ["f"] []) else none)
      true (deduplicate_parent_paths [[("data" : String)]])).isOk :=
  (upload_failure_swallowed ⟨[["data"]], none, fun p => if p = ["data"] then
      some (FSNode.mk ["f"] []) else none, none, [], 1000, true, none,
      MarkerState.absent, PutOutcome.failure "boom"⟩ "boom" rfl).1

/-- Records gathered when every missing root is skipped: the concatenation of
the scans of the existing roots. -/
def rowsSkippingMissing (fs : PathSegs → Option FSNode) : List PathSegs →
    List ScanRecord
  | [] => []
  | root :: rest =>
    (match fs root with
     | none => []
     | some t => scan_root root t) ++ rowsSkippingMissing fs rest

/-- C10: an absent ignore_missing_path option is read as true, so a missing
root is skipped and the run continues with the remaining roots; a missing
root aborts the run only when the option is explicitly false. -/
theorem ignore_missing_path_defaults_true (env : ScanTaskEnv)
    (habs : env.ignore_missing_path = none) :
    scan_task env = scan_task ⟨env.paths, some true, env.fs, env.retention_days,
      env.outputEntries, env.now, env.oss_enabled, env.upload_interval_days,
      env.marker, env.put⟩ ∧
    (∀ (fs : PathSegs → Option FSNode) (roots : List PathSegs),
      gatherRows fs true roots = .ok (rowsSkippingMissing fs roots)) ∧
    (∀ (fs : PathSegs → Option FSNode) (roots : List PathSegs),
      (∃ r ∈ roots, fs r = none) ↔ (gatherRows fs false roots).isOk = false) := by
  refine ⟨?_, ?_, ?_⟩
  · rw [scan_task, scan_task]
    simp [habs]
  · intro fs roots
    induction roots with
    | nil => rfl
    | cons root rest ih =>
      rw [gatherRows, rowsSkippingMissing]
      cases fs root <;> simp [ih, Except.map]
  · intro fs roots
    induction roots with
    | nil =>
      exact ⟨fun h => absurd h (by simp),
        fun h => by rw [gatherRows] at h; exact absurd h (by decide)⟩
    | cons root rest ih =>
      rw [gatherRows]
      cases hfr : fs root with
      | none =>
        exact ⟨fun _ => rfl, fun _ => ⟨root, List.mem_cons_self root rest, hfr⟩⟩
      | some t =>
        have hmap : (Except.map (fun rows => scan_root root t ++ rows)
            (gatherRows fs false rest)).isOk = (gatherRows fs false rest).isOk := by
          cases gatherRows fs false rest <;> rfl
        rw [hmap, ← ih]
        constructor
        · rintro ⟨r, hr, hrnone⟩
          rcases List.mem_cons.mp hr with h | h
          · subst h
            rw [hfr] at hrnone
            exact absurd hrnone (by simp)
          · exact ⟨r, h, hrnone⟩
        · rintro ⟨r, hr, hrnone⟩
          exact ⟨r, List.mem_cons_of_mem root hr, hrnone⟩

/-- Concrete instantiation of the ignore_missing_path theorem: a run with the
option absent equals the same run with the option explicitly true. -/
theorem ignore_missing_path_defaults_true_witness :
    scan_task ⟨[["gone"]], none, fun _ => none, none, [], 0, false, none,
      MarkerState.absent, PutOutcome.success⟩ =
    scan_task ⟨[["gone"]], some true, fun _ => none, none, [], 0, false, none,
      MarkerState.absent, PutOutcome.success⟩ :=
  (ignore_missing_path_defaults_true ⟨[["gone"]], none, fun _ => none, none, [],
    0, false, none, MarkerState.absent, PutOutcome.success⟩ rfl).1

/-! ## ActionExecutor / JobRegistry (main.py and api.py: record_job,
run_action, trigger_action, start_scheduler) -/

/-- Job status values written by record_job. -/
inductive JobStatus where
  | queued : JobStatus
  | running : JobStatus
  | success : JobStatus
  | error : JobStatus
deriving DecidableEq, Repr

/-- One record_job call for a fixed job id: the status and error message it
stores (record_job overwrites the whole record). -/
structure JobWrite where
  status : JobStatus
  error : String
deriving DecidableEq, Repr

/-- Abstract outcome of one action body: it returns, or raises with a
message. -/
inductive ActionOutcome where
  | ok : ActionOutcome
  | raises (msg : String) : ActionOutcome
deriving DecidableEq, Repr

/-- main.py/api.py run_action: record running, call the action, record
success; any exception is caught and recorded as error with its message.  The
function is total — the except clause means nothing escapes it.  Returns the
sequence of record_job writes it performs, in order. -/
def run_action (fn : ActionOutcome) : List JobWrite :=
  match fn with
  | .ok => [⟨.running, ""⟩, ⟨.success, ""⟩]
  | .raises m => [⟨.running, ""⟩, ⟨.error, m⟩]

/-- The three ways an action run is triggered. -/
inductive TriggerPath where
  | httpSync : TriggerPath
  | httpAsync : TriggerPath
  | scheduled : TriggerPath
deriving DecidableEq, Repr

/-- What one trigger produces: the run_action job writes for the dispatched
job, and the exception, if any, escaping the application code into the caller
(the HTTP framework or the scheduler library).  The HTTP paths
(trigger_action) run the action through run_action; the async handler's extra
queued write is covered by the interleaving model below.  The scheduled path
(start_scheduler in main.py, and main in scanner.py) registers scan_task
itself as the scheduler job, so no record_job runs and an exception from the
action body escapes into the scheduler library. -/
def dispatchTrigger : TriggerPath → ActionOutcome → (List JobWrite × Option String)
  | .httpSync, fn => (run_action fn, none)
  | .httpAsync, fn => (run_action fn, none)
  | .scheduled, .ok => ([], none)
  | .scheduled, .raises m => ([], some m)

/-- C3 counterexample: on the scheduled trigger path an exception from the
action body escapes to the scheduler and no job write records the failure,
because start_scheduler registers scan_task directly instead of wrapping it
in run_action. -/
theorem scheduled_exception_escapes :
    (dispatchTrigger .scheduled (.raises "boom")).2 = some "boom" ∧
    (dispatchTrigger .scheduled (.raises "boom")).1 = [] := by
  decide

/-- C3 amended: on the synchronous and asynchronous HTTP trigger paths every
exception raised by the action body is caught by run_action and recorded as an
error write carrying the message, and nothing escapes to the control surface;
on the scheduled path the exception instead escapes to the scheduler with no
job recorded. -/
theorem http_exceptions_caught_and_recorded (fn : ActionOutcome) (m : String) :
    ((dispatchTrigger .httpSync fn).2 = none ∧
     (dispatchTrigger .httpAsync fn).2 = none) ∧
    (fn = .raises m →
      ⟨.error, m⟩ ∈ (dispatchTrigger .httpSync fn).1 ∧
      ⟨.error, m⟩ ∈ (dispatchTrigger .httpAsync fn).1) ∧
    (dispatchTrigger .scheduled (.raises m)).2 = some m := by
  refine ⟨⟨?_, ?_⟩, ?_, rfl⟩
  · cases fn <;> rfl
  · cases fn <;> rfl
  · intro hfn
    subst hfn
    exact ⟨by simp [dispatchTrigger, run_action], by simp [dispatchTrigger, run_action]⟩

/-- Concrete instantiation of the HTTP exception-isolation theorem on a
failing action. -/
theorem http_exceptions_caught_and_recorded_witness :
    (⟨JobStatus.error, "x"⟩ : JobWrite) ∈
      (dispatchTrigger .httpSync (.raises "x")).1 :=
  ((http_exceptions_caught_and_recorded (.raises "x") "x").2.1 rfl).1

/-- Interleaving of two event sequences, preserving the order within each. -/
inductive Interleaving : List JobWrite → List JobWrite → List JobWrite → Prop where
  | nil : Interleaving [] [] []
  | left {x : JobWrite} {xs ys zs : List JobWrite} :
      Interleaving xs ys zs → Interleaving (x :: xs) ys (x :: zs)
  | right {y : JobWrite} {xs ys zs : List JobWrite} :
      Interleaving xs ys zs → Interleaving xs (y :: ys) (y :: zs)

/-- Possible global orders of the record_job writes for one asynchronously
dispatched job: trigger_action starts the worker thread before recording
queued, so the handler's single queued write may land anywhere relative to
the worker's run_action writes. -/
def asyncWriteOrders (fn : ActionOutcome) (t : List JobWrite) : Prop :=
  Interleaving [⟨.queued, ""⟩] (run_action fn) t

/-- Final registry entry for the job after a sequence of record_job writes
(each write overwrites the record). -/
def applyWrites (t : List JobWrite) : Option JobWrite :=
  t.foldl (fun _ w => some w) none

/-- Test of a terminal status. -/
def isTerminal (s : JobStatus) : Bool :=
  s = JobStatus.success || s = JobStatus.error

/-- Claimed lifecycle property on a write sequence: once a terminal status is
written, no further write occurs. -/
def terminalFinal : List JobWrite → Bool
  | [] => true
  | w :: rest => if isTerminal w.status then rest.isEmpty else terminalFinal rest

/-- C2: the code can violate the claimed lifecycle.  Because trigger_action
calls thread.start() before record_job queued, the worker may run to
completion first; the write order running, success, queued is then a possible
interleaving, the terminal success record is overwritten, and the job's final
status is queued — a terminal state did not stay final. -/
theorem async_job_status_race :
    asyncWriteOrders .ok
      [⟨.running, ""⟩, ⟨.success, ""⟩, ⟨.queued, ""⟩] ∧
    terminalFinal [⟨.running, ""⟩, ⟨.success, ""⟩, ⟨.queued, ""⟩] = false ∧
    applyWrites [⟨.running, ""⟩, ⟨.success, ""⟩, ⟨.queued, ""⟩] =
      some ⟨.queued, ""⟩ := by
  refine ⟨?_, by decide, by decide⟩
  exact Interleaving.right (Interleaving.right (Interleaving.left Interleaving.nil))

/-! ## Scan serialization lock (main.py and api.py: scan_lock, action_scan;
main.py: start_scheduler) -/

/-- How a scan invocation reaches scan_task: an HTTP trigger runs action_scan,
which wraps scan_task in the with scan_lock block; the in-process scheduler
job of main.py calls scan_task directly. -/
inductive ScanVia where
  | http : ScanVia
  | sched : ScanVia
deriving DecidableEq, Repr

/-- Phase of one scan invocation. -/
inductive ScanPhase where
  | idle : ScanPhase
  | inScan : ScanPhase
  | done : ScanPhase
deriving DecidableEq, Repr

/-- Process state: one entry per scan invocation, and the holder of scan_lock
if any. -/
structure LockState where
  threads : List (ScanVia × ScanPhase)
  lock : Option Nat
deriving DecidableEq, Repr

/-- Interleaving semantics of the scan entry points: an HTTP thread enters
scan_task only by acquiring the free lock, and releases it on exit; a
scheduler thread enters and leaves scan_task without touching the lock. -/
inductive LockStep : LockState → LockState → Prop where
  | httpEnter {s : LockState} {i : Nat} :
      s.threads[i]? = some (.http, .idle) → s.lock = none →
      LockStep s ⟨s.threads.set i (.http, .inScan), some i⟩
  | httpExit {s : LockState} {i : Nat} :
      s.threads[i]? = some (.http, .inScan) → s.lock = some i →
      LockStep s ⟨s.threads.set i (.http, .done), none⟩
  | schedEnter {s : LockState} {i : Nat} :
      s.threads[i]? = some (.sched, .idle) →
      LockStep s ⟨s.threads.set i (.sched, .inScan), s.lock⟩
  | schedExit {s : LockState} {i : Nat} :
      s.threads[i]? = some (.sched, .inScan) →
      LockStep s ⟨s.threads.set i (.sched, .done), s.lock⟩

/-- Reflexive-transitive closure of LockStep. -/
inductive LockReachable : LockState → LockState → Prop where
  | refl (s : LockState) : LockReachable s s
  | step {s t u : LockState} : LockReachable s t → LockStep t u → LockReachable s u

/-- Initial state for a given population of scan triggers: all idle, lock
free. -/
def initLockState (kinds : List ScanVia) : LockState :=
  ⟨kinds.map (fun k => (k, ScanPhase.idle)), none⟩

/-- Number of threads currently inside scan_task. -/
def inScanCount (s : LockState) : Nat :=
  (s.threads.filter (fun t => t.2 = ScanPhase.inScan)).length

/-- C1 counterexample: starting from one HTTP scan trigger and one scheduled
run, a state with two invocations inside scan_task simultaneously is
reachable, because the scheduler path never takes scan_lock. -/
theorem scan_lock_not_processwide :
    ∃ s : LockState, LockReachable (initLockState [.http, .sched]) s ∧
      inScanCount s = 2 := by
  refine ⟨⟨[(ScanVia.http, ScanPhase.inScan), (ScanVia.sched, ScanPhase.inScan)],
    some 0⟩, ?_, by decide⟩
  have h1 : LockStep (initLockState [.http, .sched])
      ⟨[(ScanVia.http, ScanPhase.inScan), (ScanVia.sched, ScanPhase.idle)],
        some 0⟩ :=
    LockStep.httpEnter (i := 0) rfl rfl
  have h2 : LockStep
      ⟨[(ScanVia.http, ScanPhase.inScan), (ScanVia.sched, ScanPhase.idle)],
        some 0⟩
      ⟨[(ScanVia.http, ScanPhase.inScan), (ScanVia.sched, ScanPhase.inScan)],
        some 0⟩ :=
    LockStep.schedEnter (i := 1) rfl
  exact LockReachable.step (LockReachable.step (LockReachable.refl _) h1) h2

/-- Invariant: any HTTP thread inside scan_task is the lock holder. -/
def httpHoldersLocked (s : LockState) : Prop :=
  ∀ i : Nat, s.threads[i]? = some (.http, .inScan) → s.lock = some i

theorem lockStep_preserves_httpHoldersLocked {s t : LockState}
    (hst : LockStep s t) (hs : httpHoldersLocked s) : httpHoldersLocked t := by
  cases hst with
  | httpEnter hi hlock =>
    intro j hj
    rename_i i
    by_cases hij : i = j
    · subst hij
      rfl
    · simp only [List.getElem?_set_ne hij] at hj
      have := hs j hj
      rw [hlock] at this
      exact absurd this (by simp)
  | httpExit hi hlock =>
    intro j hj
    rename_i i
    by_cases hij : i = j
    · subst hij
      have hlen : i < s.threads.length := (List.getElem?_eq_some.mp hi).1
      rw [List.getElem?_set_self hlen] at hj
      simp at hj
    · simp only [List.getElem?_set_ne hij] at hj
      have := hs j hj
      rw [hlock] at this
      exact absurd this (by simp [hij])
  | schedEnter hi =>
    intro j hj
    rename_i i
    by_cases hij : i = j
    · subst hij
      have hlen : i < s.threads.length := (List.getElem?_eq_some.mp hi).1
      rw [List.getElem?_set_self hlen] at hj
      simp at hj
    · simp only [List.getElem?_set_ne hij] at hj
      exact hs j hj
  | schedExit hi =>
    intro j hj
    rename_i i
    by_cases hij : i = j
    · subst hij
      have hlen : i < s.threads.length := (List.getElem?_eq_some.mp hi).1
      rw [List.getElem?_set_self hlen] at hj
      simp at hj
    · simp only [List.getElem?_set_ne hij] at hj
      exact hs j hj

theorem lockReachable_httpHoldersLocked (kinds : List ScanVia) (s : LockState)
    (hreach : LockReachable (initLockState kinds) s) : httpHoldersLocked s := by
  induction hreach with
  | refl =>
    intro k hk
    simp [initLockState, List.getElem?_map] at hk
  | step hr hst ih => exact lockStep_preserves_httpHoldersLocked hst ih

/-- C1 amended: an HTTP-triggered scan is inside scan_task only while holding
scan_lock, so two HTTP scan triggers never execute scan_task simultaneously;
the exclusion is not process-wide because the scheduled path bypasses the
lock (see the reachable double-entry state above). -/
theorem http_scans_mutually_exclusive (kinds : List ScanVia) (s : LockState)
    (hreach : LockReachable (initLockState kinds) s) (i j : Nat)
    (hi : s.threads[i]? = some (.http, .inScan))
    (hj : s.threads[j]? = some (.http, .inScan)) : i = j := by
  have hinv : httpHoldersLocked s := lockReachable_httpHoldersLocked kinds s hreach
  have h1 := hinv i hi
  have h2 := hinv j hj
  rw [h1] at h2
  exact Option.some.inj h2

/-- Concrete instantiation of the HTTP mutual-exclusion theorem: a single HTTP
scan inside scan_task, checked against itself. -/
theorem http_scans_mutually_exclusive_witness : (0 : Nat) = 0 :=
  http_scans_mutually_exclusive [.http] ⟨[(ScanVia.http, ScanPhase.inScan)], some 0⟩
    (LockReachable.step (LockReachable.refl _) (LockStep.httpEnter (i := 0) rfl rfl))
    0 0 rfl rfl
